import Mathlib

/-!
Shallow embedding of the progression engine of `startup_empire_advanced.py`
(the "Startup Empire" idle-game economy).  Python floats are modelled as
exact rationals, Python `int(...)` truncation as `pyInt`, wall-clock time
(`time.time()`) as an explicit rational argument, and the Streamlit button
handlers as pure state-transition functions returning `Except` for the
user-facing rejections.
-/

namespace StartupEmpire

/-- Python `int(x)` on a real (float) argument: truncation toward zero. -/
def pyInt (q : ℚ) : ℤ := if 0 ≤ q then ⌊q⌋ else ⌈q⌉

/-- One entry of `BUSINESS_CONFIG`. -/
structure BusinessDef where
  id : String
  name : String
  base_cost : ℚ
  base_income : ℚ
  icon : String
  desc : String
  deriving Repr, DecidableEq

/-- One entry of `UPGRADE_CONFIG` (`type` is "click" or "global"). -/
structure UpgradeDef where
  id : String
  name : String
  cost : ℚ
  type : String
  mult : ℚ
  icon : String
  desc : String
  deriving Repr, DecidableEq

/-- The static business catalog (`BUSINESS_CONFIG`). -/
def BUSINESS_CONFIG : List BusinessDef :=
  [ { id := "lemonade", name := "Lemonade Stand", base_cost := 15, base_income := 1,
      icon := "L", desc := "Neighborhood hydration specialist." },
    { id := "dropship", name := "Dropshipping Store", base_cost := 150, base_income := 8,
      icon := "D", desc := "Selling cheap gadgets at 500% markup." },
    { id := "web_agency", name := "Web Agency", base_cost := 1500, base_income := 45,
      icon := "W", desc := "Building landing pages for startups." },
    { id := "crypto_farm", name := "Crypto Farm", base_cost := 12000, base_income := 200,
      icon := "C", desc := "Turning electricity into speculative assets." },
    { id := "ai_startup", name := "AI SaaS Unicorn", base_cost := 150000, base_income := 1200,
      icon := "A", desc := "Disrupting industries with LLMs." },
    { id := "quantum", name := "Quantum Server", base_cost := 2500000, base_income := 15000,
      icon := "Q", desc := "Computing in parallel dimensions." },
    { id := "mars_colony", name := "Mars Colony", base_cost := 45000000, base_income := 120000,
      icon := "M", desc := "Interplanetary real estate." } ]

/-- The static upgrade catalog (`UPGRADE_CONFIG`). -/
def UPGRADE_CONFIG : List UpgradeDef :=
  [ { id := "click_1", name := "Mechanical Keyboard", cost := 500, type := "click", mult := 2,
      icon := "K", desc := "x2 Click Power" },
    { id := "auto_1", name := "Outsource Labor", cost := 2500, type := "global", mult := 1.2,
      icon := "O", desc := "+20% All Income" },
    { id := "click_2", name := "Neural Link", cost := 50000, type := "click", mult := 5,
      icon := "N", desc := "x5 Click Power" },
    { id := "auto_2", name := "Tax Loopholes", cost := 1000000, type := "global", mult := 1.5,
      icon := "T", desc := "+50% All Income" },
    { id := "synergy_1", name := "Market Monopoly", cost := 50000000, type := "global", mult := 2.0,
      icon := "S", desc := "x2 All Income" } ]

/-- The mutable game state (`class GameState`).  `businesses` is the
owned-count mapping (`dict.get(id, 0)` semantics: total function, default 0);
`history_time` / `history_value` are the two parallel history lists. -/
structure GameState where
  money : ℚ
  lifetime_earnings : ℚ
  start_time : ℚ
  last_tick : ℚ
  businesses : String → ℕ
  upgrades : List String
  angels : ℕ
  prestige_mult : ℚ
  history_time : List ℤ
  history_value : List ℚ

/-- `GameState.__init__`: the fresh state.  Both `time.time()` reads in the
constructor are the single instant `now`. -/
def GameState.init (now : ℚ) : GameState :=
  { money := 0
    lifetime_earnings := 0
    start_time := now
    last_tick := now
    businesses := fun _ => 0
    upgrades := []
    angels := 0
    prestige_mult := 0.05
    history_time := [0]
    history_value := [0] }

/-- The body of the upgrade loop in `calculate_rates`: fold one owned
upgrade id into the `(global_mult, click_mult)` accumulator. -/
def apply_upgrade (acc : ℚ × ℚ) (u_id : String) : ℚ × ℚ :=
  match UPGRADE_CONFIG.find? (fun u => u.id == u_id) with
  | some u =>
      if u.type == "global" then (acc.1 * u.mult, acc.2)
      else if u.type == "click" then (acc.1, acc.2 * u.mult)
      else acc
  | none => acc

/-- `calculate_rates(state)`: returns `(final_passive, final_click)`. -/
def calculate_rates (state : GameState) : ℚ × ℚ :=
  let passive_income : ℚ :=
    BUSINESS_CONFIG.foldl (fun acc b => acc + b.base_income * (state.businesses b.id : ℚ)) 0
  let m := state.upgrades.foldl apply_upgrade (1.0, 1.0)
  let angel_bonus : ℚ := 1.0 + (state.angels : ℚ) * state.prestige_mult
  let final_passive := passive_income * m.1 * angel_bonus
  let base_click := max 1 (final_passive * 0.05)
  let final_click := base_click * m.2 * angel_bonus
  (final_passive, final_click)

/-- `get_business_cost(base_cost, count) = int(base_cost * 1.15 ** count)`. -/
def get_business_cost (base_cost : ℚ) (count : ℕ) : ℤ :=
  pyInt (base_cost * (1.15 : ℚ) ^ count)

/-- The history append in `process_tick`: append `(game_time, money)` to the
parallel lists, then pop the oldest entry of each if the time list exceeds
100 entries. -/
def append_sample (state : GameState) (game_time : ℤ) : GameState :=
  let ht := state.history_time ++ [game_time]
  let hv := state.history_value ++ [state.money]
  if ht.length > 100 then
    { state with history_time := ht.tail, history_value := hv.tail }
  else
    { state with history_time := ht, history_value := hv }

/-- `process_tick()` with the wall clock passed explicitly: accrue passive
income over `delta = now - last_tick` when positive, then sample history. -/
def process_tick (state : GameState) (now : ℚ) : GameState :=
  let delta := now - state.last_tick
  if 0 < delta then
    let passive := (calculate_rates state).1
    let earnings := passive * delta
    let state := { state with
      money := state.money + earnings
      lifetime_earnings := state.lifetime_earnings + earnings
      last_tick := now }
    let game_time := pyInt (now - state.start_time)
    match state.history_time.getLast? with
    | none => append_sample state game_time
    | some last => if last + 2 < game_time then append_sample state game_time else state
  else
    state

/-- The "MANUAL WORK" button handler: add the current click rate to both
`money` and `lifetime_earnings`. -/
def manual_work (state : GameState) : GameState :=
  let click_rate := (calculate_rates state).2
  { state with
    money := state.money + click_rate
    lifetime_earnings := state.lifetime_earnings + click_rate }

/-- The expected user-facing rejections of the engine operations. -/
inductive EngineError where
  | InsufficientFunds
  | AlreadyOwned
  | NoClaimableUnits
  deriving Repr, DecidableEq

/-- The per-business "Buy" button handler: the button is disabled unless
`money >= cost` (an attempted purchase without funds is rejected and changes
nothing); on success deduct the cost and increment the owned count. -/
def buy_business (state : GameState) (b : BusinessDef) : Except EngineError GameState :=
  let count := state.businesses b.id
  let cost : ℤ := get_business_cost b.base_cost count
  if (cost : ℚ) ≤ state.money then
    Except.ok { state with
      money := state.money - (cost : ℚ)
      businesses := fun i => if i = b.id then state.businesses i + 1 else state.businesses i }
  else
    Except.error EngineError.InsufficientFunds

/-- The per-upgrade "Research" button handler: shown only when not yet
owned, disabled unless affordable; on success deduct the cost and append
the id to `upgrades`. -/
def buy_upgrade (state : GameState) (u : UpgradeDef) : Except EngineError GameState :=
  if state.upgrades.contains u.id then
    Except.error EngineError.AlreadyOwned
  else if u.cost ≤ state.money then
    Except.ok { state with
      money := state.money - u.cost
      upgrades := state.upgrades ++ [u.id] }
  else
    Except.error EngineError.InsufficientFunds

/-- `potential_angels = int(math.sqrt(max(0, lifetime_earnings / 1_000_000)))`.
For a real `x ≥ 0`, `int(math.sqrt(x))` is `⌊√x⌋`, which equals
`Nat.sqrt ⌊x⌋`. -/
def potential_angels (state : GameState) : ℕ :=
  Nat.sqrt (⌊max 0 (state.lifetime_earnings / 1000000)⌋).toNat

/-- `claimable = max(0, potential_angels - current_angels)`. -/
def claimable_angels (state : GameState) : ℤ :=
  max 0 ((potential_angels state : ℤ) - (state.angels : ℤ))

/-- The "next Angel" threshold displayed in the sidebar:
`(potential_angels + 1) ** 2 * 1000000`. -/
def next_angel_threshold (state : GameState) : ℕ :=
  (potential_angels state + 1) ^ 2 * 1000000

/-- The "SELL COMPANY & PRESTIGE" button handler: only offered when
`claimable > 0`; replaces the state by a fresh `GameState` carrying over
`angels + claimable` and the owned upgrade ids. -/
def execute_prestige (state : GameState) (now : ℚ) : Except EngineError GameState :=
  let claimable := claimable_angels state
  if 0 < claimable then
    Except.ok { GameState.init now with
      angels := state.angels + claimable.toNat
      upgrades := state.upgrades }
  else
    Except.error EngineError.NoClaimableUnits

/-! ### Specification-level rate expressions

Closed-form versions of the quantities `calculate_rates` accumulates in a
single pass, used to state the rate claims. -/

/-- The factor an owned upgrade id contributes to the global multiplier. -/
def global_magnitude (u_id : String) : ℚ :=
  match UPGRADE_CONFIG.find? (fun u => u.id == u_id) with
  | some u => if u.type == "global" then u.mult else 1
  | none => 1

/-- The factor an owned upgrade id contributes to the click multiplier. -/
def click_magnitude (u_id : String) : ℚ :=
  match UPGRADE_CONFIG.find? (fun u => u.id == u_id) with
  | some u => if u.type == "click" then u.mult else 1
  | none => 1

/-- Sum over all businesses of `base_income * ownedCount`. -/
def base_passive (s : GameState) : ℚ :=
  (BUSINESS_CONFIG.map (fun b => b.base_income * (s.businesses b.id : ℚ))).sum

/-- Product of the global-multiplier magnitudes of the owned upgrades. -/
def global_mult (s : GameState) : ℚ := (s.upgrades.map global_magnitude).prod

/-- Product of the click-multiplier magnitudes of the owned upgrades. -/
def click_mult (s : GameState) : ℚ := (s.upgrades.map click_magnitude).prod

/-- The prestige bonus factor `1 + prestigeUnits * prestigeBonusPerUnit`. -/
def angel_bonus (s : GameState) : ℚ := 1 + (s.angels : ℚ) * s.prestige_mult

/-- The passive income rate in closed form. -/
def passive_rate (s : GameState) : ℚ := base_passive s * global_mult s * angel_bonus s

/-- The manual-action (click) value in closed form. -/
def click_rate (s : GameState) : ℚ :=
  max 1 (passive_rate s * 0.05) * click_mult s * angel_bonus s

/-- States reachable from a fresh `GameState` through the engine
operations. -/
inductive Reachable : GameState → Prop where
  | init (t : ℚ) : Reachable (GameState.init t)
  | tick {s : GameState} (now : ℚ) : Reachable s → Reachable (process_tick s now)
  | manual {s : GameState} : Reachable s → Reachable (manual_work s)
  | buyB {s s' : GameState} {b : BusinessDef} :
      Reachable s → buy_business s b = Except.ok s' → Reachable s'
  | buyU {s s' : GameState} {u : UpgradeDef} :
      Reachable s → buy_upgrade s u = Except.ok s' → Reachable s'
  | prestige {s s' : GameState} {now : ℚ} :
      Reachable s → execute_prestige s now = Except.ok s' → Reachable s'

/-! ### Helper lemmas -/

/-- Evaluate `Nat.sqrt` from the square bracketing. -/
lemma sqrt_eval {k n : ℕ} (h1 : k * k ≤ n) (h2 : n < (k + 1) * (k + 1)) :
    Nat.sqrt n = k :=
  (Nat.eq_sqrt.2 ⟨h1, h2⟩).symm

lemma foldl_add_eq_sum {α : Type} (f : α → ℚ) (l : List α) (a : ℚ) :
    l.foldl (fun acc b => acc + f b) a = a + (l.map f).sum := by
  induction l generalizing a with
  | nil => simp
  | cons x xs ih => simp [ih, add_assoc]

lemma apply_upgrade_eq (acc : ℚ × ℚ) (u_id : String) :
    apply_upgrade acc u_id = (acc.1 * global_magnitude u_id, acc.2 * click_magnitude u_id) := by
  unfold apply_upgrade global_magnitude click_magnitude
  rcases h : UPGRADE_CONFIG.find? (fun u => u.id == u_id) with _ | u
  · simp only [h]; simp
  · have hu : u ∈ UPGRADE_CONFIG := List.mem_of_find?_eq_some h
    simp only [h]
    fin_cases hu <;> simp

lemma foldl_apply_upgrade (l : List String) (g c : ℚ) :
    l.foldl apply_upgrade (g, c) =
      (g * (l.map global_magnitude).prod, c * (l.map click_magnitude).prod) := by
  induction l generalizing g c with
  | nil => simp
  | cons x xs ih =>
      simp only [List.foldl_cons, List.map_cons, List.prod_cons, apply_upgrade_eq, ih]
      ring_nf

/-- `calculate_rates` computes exactly the closed-form rates. -/
lemma calculate_rates_eq (s : GameState) :
    calculate_rates s = (passive_rate s, click_rate s) := by
  unfold calculate_rates
  rw [foldl_add_eq_sum, foldl_apply_upgrade]
  simp only [zero_add, one_mul]
  unfold click_rate passive_rate base_passive global_mult click_mult angel_bonus
  norm_num

lemma upgrade_mult_nonneg : ∀ u ∈ UPGRADE_CONFIG, 0 ≤ u.mult := by
  intro u hu; fin_cases hu <;> norm_num

lemma business_income_nonneg : ∀ b ∈ BUSINESS_CONFIG, 0 ≤ b.base_income := by
  intro b hb; fin_cases hb <;> norm_num

lemma business_cost_ge : ∀ b ∈ BUSINESS_CONFIG, 15 ≤ b.base_cost := by
  intro b hb; fin_cases hb <;> norm_num

lemma global_magnitude_nonneg (u_id : String) : 0 ≤ global_magnitude u_id := by
  unfold global_magnitude
  rcases h : UPGRADE_CONFIG.find? (fun u => u.id == u_id) with _ | u
  · simp only [h]; norm_num
  · have hu : u ∈ UPGRADE_CONFIG := List.mem_of_find?_eq_some h
    have := upgrade_mult_nonneg u hu
    simp only [h]
    split <;> simp [this]

lemma click_magnitude_nonneg (u_id : String) : 0 ≤ click_magnitude u_id := by
  unfold click_magnitude
  rcases h : UPGRADE_CONFIG.find? (fun u => u.id == u_id) with _ | u
  · simp only [h]; norm_num
  · have hu : u ∈ UPGRADE_CONFIG := List.mem_of_find?_eq_some h
    have := upgrade_mult_nonneg u hu
    simp only [h]
    split <;> simp [this]

lemma base_passive_nonneg (s : GameState) : 0 ≤ base_passive s := by
  apply List.sum_nonneg
  intro x hx
  rcases List.mem_map.1 hx with ⟨b, hb, rfl⟩
  exact mul_nonneg (business_income_nonneg b hb) (Nat.cast_nonneg _)

lemma global_mult_nonneg (s : GameState) : 0 ≤ global_mult s := by
  apply List.prod_nonneg
  intro x hx
  rcases List.mem_map.1 hx with ⟨u, _, rfl⟩
  exact global_magnitude_nonneg u

lemma click_mult_nonneg (s : GameState) : 0 ≤ click_mult s := by
  apply List.prod_nonneg
  intro x hx
  rcases List.mem_map.1 hx with ⟨u, _, rfl⟩
  exact click_magnitude_nonneg u

lemma angel_bonus_nonneg {s : GameState} (h : 0 ≤ s.prestige_mult) : 0 ≤ angel_bonus s :=
  add_nonneg zero_le_one (mul_nonneg (Nat.cast_nonneg _) h)

lemma passive_rate_nonneg {s : GameState} (h : 0 ≤ s.prestige_mult) : 0 ≤ passive_rate s :=
  mul_nonneg (mul_nonneg (base_passive_nonneg s) (global_mult_nonneg s)) (angel_bonus_nonneg h)

lemma click_rate_nonneg {s : GameState} (h : 0 ≤ s.prestige_mult) : 0 ≤ click_rate s :=
  mul_nonneg
    (mul_nonneg (le_trans zero_le_one (le_max_left _ _)) (click_mult_nonneg s))
    (angel_bonus_nonneg h)

/-- `process_tick` only changes `money`, `lifetime_earnings`, `last_tick`
and the history lists. -/
lemma process_tick_preserves (s : GameState) (now : ℚ) :
    (process_tick s now).businesses = s.businesses ∧
    (process_tick s now).upgrades = s.upgrades ∧
    (process_tick s now).angels = s.angels ∧
    (process_tick s now).prestige_mult = s.prestige_mult ∧
    (process_tick s now).start_time = s.start_time := by
  unfold process_tick append_sample
  dsimp only
  repeat' split
  all_goals simp

/-- Two states agreeing on the four rate-relevant fields get the same
rates. -/
lemma calculate_rates_congr {s t : GameState} (hb : t.businesses = s.businesses)
    (hu : t.upgrades = s.upgrades) (ha : t.angels = s.angels)
    (hp : t.prestige_mult = s.prestige_mult) :
    calculate_rates t = calculate_rates s := by
  unfold calculate_rates
  rw [hb, hu, ha, hp]

lemma calculate_rates_process_tick (s : GameState) (now : ℚ) :
    calculate_rates (process_tick s now) = calculate_rates s := by
  obtain ⟨hb, hu, ha, hp, -⟩ := process_tick_preserves s now
  exact calculate_rates_congr hb hu ha hp

/-- A tick with a non-positive delta is a complete no-op. -/
lemma process_tick_of_le {s : GameState} {now : ℚ} (h : now ≤ s.last_tick) :
    process_tick s now = s := by
  unfold process_tick
  rw [if_neg (by simp; linarith)]

/-- The state after the accrual phase of a tick, before history
sampling. -/
def accrued (s : GameState) (now : ℚ) : GameState :=
  { s with
    money := s.money + passive_rate s * (now - s.last_tick)
    lifetime_earnings := s.lifetime_earnings + passive_rate s * (now - s.last_tick)
    last_tick := now }

/-- An accruing tick is the accrual phase, optionally followed by a history
sample (only when past the 2-second spacing since the last sample). -/
lemma process_tick_eq {s : GameState} {now : ℚ} (h : 0 < now - s.last_tick) :
    process_tick s now = accrued s now ∨
    ((∀ last ∈ s.history_time.getLast?, last + 2 < pyInt (now - s.start_time)) ∧
      process_tick s now = append_sample (accrued s now) (pyInt (now - s.start_time))) := by
  have hrate : (calculate_rates s).1 = passive_rate s := by rw [calculate_rates_eq]
  unfold process_tick
  rw [if_pos h]
  dsimp only
  rw [hrate]
  rcases hl : s.history_time.getLast? with _ | last
  · simp only [hl]
    exact Or.inr ⟨by simp, rfl⟩
  · simp only [hl]
    split
    · rename_i hcond
      exact Or.inr ⟨by simpa using hcond, rfl⟩
    · exact Or.inl rfl

/-- `append_sample` leaves every non-history field unchanged. -/
lemma append_sample_fields (t : GameState) (gt : ℤ) :
    (append_sample t gt).money = t.money ∧
    (append_sample t gt).lifetime_earnings = t.lifetime_earnings ∧
    (append_sample t gt).last_tick = t.last_tick := by
  unfold append_sample
  dsimp only
  split <;> exact ⟨rfl, rfl, rfl⟩

/-- A tick with a non-negative delta accrues `passive_rate * delta` on both
currency fields and moves `last_tick` to `now`. -/
lemma process_tick_accrues {s : GameState} {now : ℚ} (h : s.last_tick ≤ now) :
    (process_tick s now).money = s.money + passive_rate s * (now - s.last_tick) ∧
    (process_tick s now).lifetime_earnings
      = s.lifetime_earnings + passive_rate s * (now - s.last_tick) ∧
    (process_tick s now).last_tick = now := by
  rcases eq_or_lt_of_le h with heq | hlt
  · rw [process_tick_of_le heq.ge, ← heq]
    exact ⟨by ring, by ring, rfl⟩
  · rcases process_tick_eq (by linarith) with heq | ⟨-, heq⟩
    · rw [heq]; exact ⟨rfl, rfl, rfl⟩
    · rw [heq]
      obtain ⟨h1, h2, h3⟩ := append_sample_fields (accrued s now) (pyInt (now - s.start_time))
      exact ⟨h1, h2, h3⟩

/-- The history lists after a tick: either untouched, or a fresh sample is
appended (only above the 2-second spacing) and the oldest sample of each
list is evicted when the time list would exceed 100 entries. -/
lemma process_tick_history (s : GameState) (now : ℚ) :
    ((process_tick s now).history_time = s.history_time ∧
     (process_tick s now).history_value = s.history_value) ∨
    ∃ gt : ℤ, ∃ v : ℚ, (∀ last ∈ s.history_time.getLast?, last + 2 < gt) ∧
      ((process_tick s now).history_time, (process_tick s now).history_value) =
        (if (s.history_time ++ [gt]).length > 100
         then ((s.history_time ++ [gt]).tail, (s.history_value ++ [v]).tail)
         else (s.history_time ++ [gt], s.history_value ++ [v])) := by
  by_cases hd : 0 < now - s.last_tick
  · rcases process_tick_eq hd with heq | ⟨hcond, heq⟩
    · exact Or.inl ⟨by rw [heq]; rfl, by rw [heq]; rfl⟩
    · refine Or.inr ⟨pyInt (now - s.start_time), (accrued s now).money, hcond, ?_⟩
      rw [heq]
      unfold append_sample accrued
      dsimp only
      split <;> simp
  · rw [process_tick_of_le (by linarith)]
    exact Or.inl ⟨rfl, rfl⟩

/-- The history well-formedness invariant: bounded length, strictly
increasing sampled times, parallel lists in lockstep. -/
def hist_inv (s : GameState) : Prop :=
  s.history_time.length ≤ 100 ∧ s.history_time.Chain' (· < ·) ∧
  s.history_value.length = s.history_time.length

lemma hist_inv_process_tick {s : GameState} (h : hist_inv s) (now : ℚ) :
    hist_inv (process_tick s now) := by
  obtain ⟨hlen, hchain, hval⟩ := h
  rcases process_tick_history s now with ⟨ht, hv⟩ | ⟨gt, v, hlast, heq⟩
  · exact ⟨ht ▸ hlen, ht ▸ hchain, by rw [ht, hv, hval]⟩
  · have hchain2 : (s.history_time ++ [gt]).Chain' (· < ·) := by
      rw [List.chain'_append]
      refine ⟨hchain, List.chain'_singleton gt, ?_⟩
      intro x hx y hy
      simp only [List.head?_cons, Option.mem_def, Option.some.injEq] at hy
      subst hy
      have := hlast x hx
      omega
    split at heq
    · rename_i hlong
      simp only [Prod.mk.injEq] at heq
      refine ⟨?_, ?_, ?_⟩
      · rw [heq.1, List.length_tail]
        simp only [List.length_append, List.length_singleton] at hlong ⊢
        omega
      · rw [heq.1]
        exact hchain2.tail
      · rw [heq.1, heq.2, List.length_tail, List.length_tail]
        simp [hval]
    · simp only [Prod.mk.injEq] at heq
      rename_i hshort
      refine ⟨?_, heq.1 ▸ hchain2, ?_⟩
      · rw [heq.1]
        simp only [List.length_append, List.length_singleton] at hshort ⊢
        omega
      · rw [heq.1, heq.2]
        simp [hval]

/-- Unfold a successful business purchase. -/
lemma buy_business_ok {s s' : GameState} {b : BusinessDef}
    (h : buy_business s b = Except.ok s') :
    ((get_business_cost b.base_cost (s.businesses b.id) : ℚ) ≤ s.money) ∧
    s' = { s with
      money := s.money - (get_business_cost b.base_cost (s.businesses b.id) : ℚ)
      businesses := fun i => if i = b.id then s.businesses i + 1 else s.businesses i } := by
  unfold buy_business at h
  dsimp only at h
  split at h
  · rename_i hc
    injection h with h
    exact ⟨hc, h.symm⟩
  · exact absurd h (by simp)

/-- Unfold a successful upgrade purchase. -/
lemma buy_upgrade_ok {s s' : GameState} {u : UpgradeDef}
    (h : buy_upgrade s u = Except.ok s') :
    s.upgrades.contains u.id = false ∧ u.cost ≤ s.money ∧
    s' = { s with money := s.money - u.cost, upgrades := s.upgrades ++ [u.id] } := by
  unfold buy_upgrade at h
  split at h
  · exact absurd h (by simp)
  · split at h
    · rename_i hown hc
      injection h with h
      exact ⟨by simpa using hown, hc, h.symm⟩
    · exact absurd h (by simp)

/-- Unfold a successful prestige. -/
lemma execute_prestige_ok {s s' : GameState} {now : ℚ}
    (h : execute_prestige s now = Except.ok s') :
    0 < claimable_angels s ∧
    s' = { GameState.init now with
      angels := s.angels + (claimable_angels s).toNat
      upgrades := s.upgrades } := by
  unfold execute_prestige at h
  dsimp only at h
  split at h
  · rename_i hc
    injection h with h
    exact ⟨hc, h.symm⟩
  · exact absurd h (by simp)

/-- Every reachable state carries the fixed 5% prestige bonus rate. -/
lemma reachable_prestige_mult {s : GameState} (h : Reachable s) :
    s.prestige_mult = 0.05 := by
  induction h with
  | init t => rfl
  | tick now _ ih =>
      obtain ⟨-, -, -, hp, -⟩ := process_tick_preserves _ now
      rw [hp]; exact ih
  | manual _ ih => exact ih
  | buyB _ hok ih =>
      obtain ⟨-, rfl⟩ := buy_business_ok hok
      exact ih
  | buyU _ hok ih =>
      obtain ⟨-, -, rfl⟩ := buy_upgrade_ok hok
      exact ih
  | prestige _ hok _ =>
      obtain ⟨-, rfl⟩ := execute_prestige_ok hok
      rfl

/-- Every reachable state satisfies the history invariant. -/
lemma hist_inv_reachable {s : GameState} (h : Reachable s) : hist_inv s := by
  induction h with
  | init t => exact ⟨by simp [GameState.init], by simp [GameState.init], by simp [GameState.init]⟩
  | tick now _ ih => exact hist_inv_process_tick ih now
  | manual _ ih => exact ih
  | buyB _ hok ih =>
      obtain ⟨-, rfl⟩ := buy_business_ok hok
      exact ih
  | buyU _ hok ih =>
      obtain ⟨-, -, rfl⟩ := buy_upgrade_ok hok
      exact ih
  | prestige _ hok _ =>
      obtain ⟨-, rfl⟩ := execute_prestige_ok hok
      exact ⟨by simp [GameState.init], by simp [GameState.init], by simp [GameState.init]⟩

lemma passive_rate_process_tick (s : GameState) (now : ℚ) :
    passive_rate (process_tick s now) = passive_rate s := by
  have h := calculate_rates_process_tick s now
  rw [calculate_rates_eq, calculate_rates_eq, Prod.mk.injEq] at h
  exact h.1

lemma chain_le_getLastD {a : ℚ} {l : List ℚ} (h : List.Chain (· ≤ ·) a l) :
    a ≤ l.getLastD a := by
  induction l generalizing a with
  | nil => simp
  | cons x xs ih =>
      rw [List.chain_cons] at h
      rw [List.getLastD_cons]
      calc a ≤ x := h.1
        _ ≤ xs.getLastD x := ih h.2

/-- Telescoped accrual over a time-ordered sequence of ticks: the total
effect on both currency fields is the passive rate times the total elapsed
time, and `last_tick` ends at the last element. -/
lemma tick_foldl (l : List ℚ) : ∀ s : GameState, List.Chain (· ≤ ·) s.last_tick l →
    (l.foldl process_tick s).money
        = s.money + passive_rate s * (l.getLastD s.last_tick - s.last_tick) ∧
    (l.foldl process_tick s).lifetime_earnings
        = s.lifetime_earnings + passive_rate s * (l.getLastD s.last_tick - s.last_tick) ∧
    (l.foldl process_tick s).last_tick = l.getLastD s.last_tick := by
  induction l with
  | nil =>
      intro s _
      refine ⟨by simp, by simp, by simp⟩
  | cons x xs ih =>
      intro s h
      rw [List.chain_cons] at h
      obtain ⟨hm, hl, ht⟩ := process_tick_accrues h.1
      have hchain : List.Chain (· ≤ ·) (process_tick s x).last_tick xs := by
        rw [ht]; exact h.2
      obtain ⟨im, il, it⟩ := ih (process_tick s x) hchain
      rw [List.foldl_cons, List.getLastD_cons]
      refine ⟨?_, ?_, ?_⟩
      · rw [im, hm, passive_rate_process_tick, ht]; ring
      · rw [il, hl, passive_rate_process_tick, ht]; ring
      · rw [it, ht]

lemma prod_map_filter_known (f : String → ℚ)
    (hf : ∀ id, UPGRADE_CONFIG.find? (fun u => u.id == id) = none → f id = 1) :
    ∀ l : List String,
      ((l.filter (fun id => UPGRADE_CONFIG.any (fun u => u.id == id))).map f).prod
        = (l.map f).prod := by
  intro l
  induction l with
  | nil => rfl
  | cons x xs ih =>
      by_cases hx : UPGRADE_CONFIG.any (fun u => u.id == x) = true
      · simp only [List.filter_cons, hx, if_true, List.map_cons, List.prod_cons, ih]
      · have hx2 : UPGRADE_CONFIG.any (fun u => u.id == x) = false :=
          Bool.not_eq_true _ ▸ eq_false_of_ne_true hx
        have hnone : UPGRADE_CONFIG.find? (fun u => u.id == x) = none := by
          rw [List.find?_eq_none]
          intro u hu
          exact fun hc => hx (List.any_eq_true.2 ⟨u, hu, hc⟩)
        simp only [List.filter_cons, hx2, Bool.false_eq_true, if_false, List.map_cons,
          List.prod_cons, ih, hf x hnone, one_mul]

/-! ### Example states used in the claims -/

/-- `lifetime_earnings = 4,000,000`, everything else fresh. -/
def exLifetime4M : GameState :=
  { GameState.init 0 with lifetime_earnings := 4000000 }

/-- 100 lemonade stands (base passive 100) and the two owned global
upgrades with multipliers 1.2 and 1.5. -/
def exGlobalUpgrades : GameState :=
  { GameState.init 0 with
    businesses := fun id => if id = "lemonade" then 100 else 0
    upgrades := ["auto_1", "auto_2"] }

/-- A fresh state holding exactly 15 currency. -/
def exMoney15 : GameState := { GameState.init 0 with money := 15 }

/-- The first catalog entry (base cost 15). -/
def lemonade_stand : BusinessDef :=
  { id := "lemonade", name := "Lemonade Stand", base_cost := 15, base_income := 1,
    icon := "L", desc := "Neighborhood hydration specialist." }

lemma potential_exLifetime4M : potential_angels exLifetime4M = 2 := by
  unfold potential_angels exLifetime4M
  rw [show max 0 ((({ GameState.init 0 with lifetime_earnings := 4000000 } :
      GameState).lifetime_earnings) / 1000000) = (4 : ℚ) from by
    norm_num [GameState.init]]
  rw [show ⌊(4 : ℚ)⌋ = (4 : ℤ) from by norm_num]
  rw [show ((4 : ℤ)).toNat = 4 from rfl]
  exact sqrt_eval (by norm_num) (by norm_num)

lemma claimable_exLifetime4M : claimable_angels exLifetime4M = 2 := by
  unfold claimable_angels
  rw [potential_exLifetime4M]
  norm_num [exLifetime4M, GameState.init]

/-! ### Claims -/

/-- Claim C2: for every state, `calculate_rates` returns
`passivePerSecond = (Σ baseIncome * ownedCount) * (Π owned global-multiplier
magnitudes) * (1 + prestigeUnits * prestigeBonusPerUnit)` and
`manualActionValue = max(1, passivePerSecond * 0.05) * clickMultiplier *
prestigeBonusFactor` — the prestige factor multiplies the manual-action
value twice (inside the passive term and again explicitly); with global
multipliers 1.2 and 1.5 and base passive 100 at zero prestige the passive
rate is 180. -/
theorem C2_compute_rates :
    (∀ s : GameState,
      calculate_rates s =
        (base_passive s * global_mult s * angel_bonus s,
         max 1 (base_passive s * global_mult s * angel_bonus s * 0.05)
           * click_mult s * angel_bonus s)) ∧
    (calculate_rates exGlobalUpgrades).1 = 180 := by
  constructor
  · intro s
    rw [calculate_rates_eq]
    rfl
  · rw [calculate_rates_eq]
    show passive_rate exGlobalUpgrades = 180
    have g1 : global_magnitude "auto_1" = 1.2 := rfl
    have g2 : global_magnitude "auto_2" = 1.5 := rfl
    unfold passive_rate base_passive global_mult angel_bonus exGlobalUpgrades
    norm_num +decide [GameState.init, BUSINESS_CONFIG, g1, g2]

/-- The same state with the upgrade ids that have no catalog entry
removed. -/
def drop_unknown_upgrades (s : GameState) : GameState :=
  { s with upgrades := s.upgrades.filter (fun id => UPGRADE_CONFIG.any (fun u => u.id == id)) }

lemma base_passive_congr {s t : GameState} (h : t.businesses = s.businesses) :
    base_passive t = base_passive s := by
  unfold base_passive; rw [h]

lemma angel_bonus_congr {s t : GameState} (ha : t.angels = s.angels)
    (hp : t.prestige_mult = s.prestige_mult) : angel_bonus t = angel_bonus s := by
  unfold angel_bonus; rw [ha, hp]

/-- Claim C10: `calculate_rates` silently skips owned upgrade ids with no
matching catalog entry: the rates equal those of the same state with the
unknown ids filtered out, and the function is total (defined for every
state). -/
theorem C10_unknown_upgrade_ids (s : GameState) :
    calculate_rates s = calculate_rates (drop_unknown_upgrades s) := by
  rw [calculate_rates_eq, calculate_rates_eq]
  have hg : global_mult (drop_unknown_upgrades s) = global_mult s := by
    unfold global_mult drop_unknown_upgrades
    exact prod_map_filter_known _
      (fun id h => by unfold global_magnitude; simp only [h]) s.upgrades
  have hc : click_mult (drop_unknown_upgrades s) = click_mult s := by
    unfold click_mult drop_unknown_upgrades
    exact prod_map_filter_known _
      (fun id h => by unfold click_magnitude; simp only [h]) s.upgrades
  have hbp : base_passive (drop_unknown_upgrades s) = base_passive s := base_passive_congr rfl
  have hab : angel_bonus (drop_unknown_upgrades s) = angel_bonus s := angel_bonus_congr rfl rfl
  have hpr : passive_rate (drop_unknown_upgrades s) = passive_rate s := by
    unfold passive_rate; rw [hg, hbp, hab]
  have hcr : click_rate (drop_unknown_upgrades s) = click_rate s := by
    unfold click_rate; rw [hpr, hc, hab]
  rw [hpr, hcr]

/-- Claim C4: `potential_angels` is the floor of the square root of
`max(0, lifetimeEarnings / 1e6)` (characterized square-root-free by the
square bracketing), `claimable = max(0, potential - prestigeUnits)`, and
the displayed next threshold is `(potential + 1)^2 * 1e6`; at lifetime
4,000,000 with zero units: potential 2, claimable 2, threshold
9,000,000. -/
theorem C4_claimable_units :
    (∀ s : GameState,
      ((potential_angels s : ℚ)) ^ 2 ≤ max 0 (s.lifetime_earnings / 1000000) ∧
      max 0 (s.lifetime_earnings / 1000000) < ((potential_angels s : ℚ) + 1) ^ 2 ∧
      claimable_angels s = max 0 ((potential_angels s : ℤ) - (s.angels : ℤ)) ∧
      next_angel_threshold s = (potential_angels s + 1) ^ 2 * 1000000) ∧
    potential_angels exLifetime4M = 2 ∧ claimable_angels exLifetime4M = 2 ∧
    next_angel_threshold exLifetime4M = 9000000 := by
  have hpot : potential_angels exLifetime4M = 2 := potential_exLifetime4M
  refine ⟨fun s => ?_, hpot, ?_, ?_⟩
  · set x : ℚ := max 0 (s.lifetime_earnings / 1000000) with hx
    set m : ℕ := ⌊x⌋.toNat with hmdef
    set p : ℕ := potential_angels s with hpdef
    have hx0 : 0 ≤ x := le_max_left 0 _
    have hfl0 : 0 ≤ ⌊x⌋ := Int.floor_nonneg.2 hx0
    have hm : ((m : ℤ)) = ⌊x⌋ := Int.toNat_of_nonneg hfl0
    have hmq : ((m : ℚ)) ≤ x := by
      have h0 : ((m : ℚ)) = ((⌊x⌋ : ℚ)) := by exact_mod_cast hm
      rw [h0]
      exact Int.floor_le x
    have hxq : x < (m : ℚ) + 1 := by
      have h0 : ((m : ℚ)) = ((⌊x⌋ : ℚ)) := by exact_mod_cast hm
      rw [h0]
      exact Int.lt_floor_add_one x
    have hp : p = Nat.sqrt m := by
      rw [hpdef, hmdef]; rfl
    refine ⟨?_, ?_, rfl, rfl⟩
    · have h1 : p * p ≤ m := hp ▸ Nat.sqrt_le m
      calc ((p : ℚ)) ^ 2 = ((p * p : ℕ) : ℚ) := by push_cast; ring
        _ ≤ ((m : ℚ)) := by exact_mod_cast h1
        _ ≤ x := hmq
    · have h1 : m < (p + 1) * (p + 1) := by
        rw [hp]
        exact Nat.lt_succ_sqrt m
      calc x < (m : ℚ) + 1 := hxq
        _ ≤ (((p + 1) * (p + 1) : ℕ) : ℚ) := by exact_mod_cast Nat.succ_le_of_lt h1
        _ = ((p : ℚ) + 1) ^ 2 := by push_cast; ring
  · unfold claimable_angels
    rw [hpot]
    norm_num [exLifetime4M, GameState.init]
  · unfold next_angel_threshold
    rw [hpot]
    norm_num

/-- Claim C5: the business purchase cost is
`int(baseCost * 1.15 ** ownedCount)`, recomputed from the current count,
and for every catalog business it is strictly increasing in the count. -/
theorem C5_cost_monotone : ∀ b ∈ BUSINESS_CONFIG, ∀ n : ℕ,
    get_business_cost b.base_cost n < get_business_cost b.base_cost (n + 1) := by
  intro b hb n
  have hbase : (15 : ℚ) ≤ b.base_cost := business_cost_ge b hb
  have hpow : (1 : ℚ) ≤ (1.15 : ℚ) ^ n := one_le_pow₀ (by norm_num)
  have hx : (15 : ℚ) ≤ b.base_cost * (1.15 : ℚ) ^ n := by
    calc (15 : ℚ) = 15 * 1 := by ring
      _ ≤ b.base_cost * (1.15 : ℚ) ^ n :=
          mul_le_mul hbase hpow zero_le_one (by linarith)
  unfold get_business_cost pyInt
  rw [if_pos (by linarith),
    if_pos (mul_nonneg (by linarith) (by positivity))]
  rw [pow_succ, ← mul_assoc]
  have hstep : b.base_cost * (1.15 : ℚ) ^ n + 1 ≤ b.base_cost * (1.15 : ℚ) ^ n * 1.15 := by
    nlinarith
  calc ⌊b.base_cost * (1.15 : ℚ) ^ n⌋
      < ⌊b.base_cost * (1.15 : ℚ) ^ n⌋ + 1 := lt_add_one _
    _ = ⌊b.base_cost * (1.15 : ℚ) ^ n + 1⌋ := (Int.floor_add_one _).symm
    _ ≤ ⌊b.base_cost * (1.15 : ℚ) ^ n * 1.15⌋ := Int.floor_le_floor hstep

/-- Witness for C5 at the Lemonade Stand and count 0. -/
theorem C5_cost_monotone_witness :
    lemonade_stand ∈ BUSINESS_CONFIG ∧
    get_business_cost lemonade_stand.base_cost 0 < get_business_cost lemonade_stand.base_cost 1 :=
  ⟨by simp [BUSINESS_CONFIG, lemonade_stand],
   C5_cost_monotone lemonade_stand (by simp [BUSINESS_CONFIG, lemonade_stand]) 0⟩

/-- Claim C6: a business purchase with `liquidCurrency < cost` is rejected
with `InsufficientFunds` and produces no changed state; a successful one
subtracts exactly the cost, increments only that business count, and
leaves `lifetime_earnings` and the owned upgrades unchanged; with 15
currency, buying the Lemonade Stand (cost 15 at count 0) succeeds leaving
0 currency and count 1. -/
theorem C6_purchase_atomicity :
    (∀ (s : GameState) (b : BusinessDef),
        s.money < (get_business_cost b.base_cost (s.businesses b.id) : ℚ) →
        buy_business s b = Except.error EngineError.InsufficientFunds) ∧
    (∀ (s : GameState) (b : BusinessDef) (s' : GameState),
        buy_business s b = Except.ok s' →
        s'.money = s.money - (get_business_cost b.base_cost (s.businesses b.id) : ℚ) ∧
        s'.businesses b.id = s.businesses b.id + 1 ∧
        (∀ i, i ≠ b.id → s'.businesses i = s.businesses i) ∧
        s'.lifetime_earnings = s.lifetime_earnings ∧
        s'.upgrades = s.upgrades) ∧
    Except.map (fun s => (s.money, s.businesses "lemonade"))
        (buy_business exMoney15 lemonade_stand) = Except.ok ((0 : ℚ), 1) := by
  refine ⟨fun s b h => ?_, fun s b s' h => ?_, ?_⟩
  · unfold buy_business
    dsimp only
    rw [if_neg (not_le.2 h)]
  · obtain ⟨hc, rfl⟩ := buy_business_ok h
    refine ⟨rfl, by simp, fun i hi => by simp [hi], rfl, rfl⟩
  · have hcost : get_business_cost lemonade_stand.base_cost 0 = 15 := by
      unfold get_business_cost pyInt lemonade_stand
      norm_num
    unfold buy_business exMoney15
    dsimp only [GameState.init]
    rw [hcost]
    rw [if_pos (by norm_num)]
    simp +decide [lemonade_stand, Except.map]

/-- Witness for C6 at the fresh state (0 currency cannot afford cost 15). -/
theorem C6_purchase_atomicity_witness :
    (GameState.init 0).money <
      (get_business_cost lemonade_stand.base_cost
        ((GameState.init 0).businesses lemonade_stand.id) : ℚ) ∧
    buy_business (GameState.init 0) lemonade_stand
      = Except.error EngineError.InsufficientFunds := by
  have h : (GameState.init 0).money <
      (get_business_cost lemonade_stand.base_cost
        ((GameState.init 0).businesses lemonade_stand.id) : ℚ) := by
    rw [show (GameState.init 0).businesses lemonade_stand.id = 0 from rfl,
      show get_business_cost lemonade_stand.base_cost 0 = 15 from by
        unfold get_business_cost pyInt lemonade_stand; norm_num]
    norm_num [GameState.init]
  exact ⟨h, C6_purchase_atomicity.1 _ _ h⟩

/-- Claim C7: a tick whose `now` is not later than `last_tick` changes no
field of the state, and ticking twice with the same `now` equals ticking
once. -/
theorem C7_tick_idempotent :
    (∀ (s : GameState) (now : ℚ), now ≤ s.last_tick → process_tick s now = s) ∧
    (∀ (s : GameState) (now : ℚ),
        process_tick (process_tick s now) now = process_tick s now) := by
  refine ⟨fun s now h => process_tick_of_le h, fun s now => ?_⟩
  by_cases h : now ≤ s.last_tick
  · rw [process_tick_of_le h, process_tick_of_le h]
  · push_neg at h
    have hlt : (process_tick s now).last_tick = now := (process_tick_accrues h.le).2.2
    exact process_tick_of_le hlt.ge

/-- Witness for C7 at a fresh state with `now = last_tick`. -/
theorem C7_tick_idempotent_witness :
    (1 : ℚ) ≤ (GameState.init 1).last_tick ∧
    process_tick (GameState.init 1) 1 = GameState.init 1 :=
  ⟨le_refl 1, C7_tick_idempotent.1 (GameState.init 1) 1 (le_refl 1)⟩

/-- Counterexample to claim C1 as stated: with lifetime earnings 4,000,000
(2 claimable units) the prestige handler succeeds and the resulting state
has `lifetime_earnings = 0`, not 4,000,000 — prestige resets it. -/
theorem C1_prestige_resets_counterexample :
    exLifetime4M.lifetime_earnings = 4000000 ∧
    Except.map (fun s => s.lifetime_earnings) (execute_prestige exLifetime4M 5)
      = Except.ok 0 := by
  refine ⟨rfl, ?_⟩
  unfold execute_prestige
  dsimp only
  rw [if_pos (by rw [claimable_exLifetime4M]; norm_num)]
  rfl

/-- Claim C1 (amended): on reachable states `lifetime_earnings` is
non-decreasing under time accrual and manual action, purchases leave it
unchanged, but `execute_prestige` resets it to 0 (it does NOT survive a
prestige event). -/
theorem C1_lifetime_monotone :
    (∀ s : GameState, Reachable s → ∀ now : ℚ,
        s.lifetime_earnings ≤ (process_tick s now).lifetime_earnings) ∧
    (∀ s : GameState, Reachable s →
        s.lifetime_earnings ≤ (manual_work s).lifetime_earnings) ∧
    (∀ (s s' : GameState) (b : BusinessDef), buy_business s b = Except.ok s' →
        s'.lifetime_earnings = s.lifetime_earnings) ∧
    (∀ (s s' : GameState) (u : UpgradeDef), buy_upgrade s u = Except.ok s' →
        s'.lifetime_earnings = s.lifetime_earnings) ∧
    (∀ (s s' : GameState) (now : ℚ), execute_prestige s now = Except.ok s' →
        s'.lifetime_earnings = 0) := by
  refine ⟨?_, ?_, ?_, ?_, ?_⟩
  · intro s hs now
    have hp : (0 : ℚ) ≤ s.prestige_mult := by
      rw [reachable_prestige_mult hs]; norm_num
    by_cases h : now ≤ s.last_tick
    · rw [process_tick_of_le h]
    · push_neg at h
      rw [(process_tick_accrues h.le).2.1]
      have := mul_nonneg (passive_rate_nonneg hp) (by linarith : (0 : ℚ) ≤ now - s.last_tick)
      linarith
  · intro s hs
    have hp : (0 : ℚ) ≤ s.prestige_mult := by
      rw [reachable_prestige_mult hs]; norm_num
    show s.lifetime_earnings ≤ s.lifetime_earnings + (calculate_rates s).2
    rw [calculate_rates_eq]
    have := click_rate_nonneg hp
    linarith
  · intro s s' b h
    obtain ⟨-, rfl⟩ := buy_business_ok h
    rfl
  · intro s s' u h
    obtain ⟨-, -, rfl⟩ := buy_upgrade_ok h
    rfl
  · intro s s' now h
    obtain ⟨-, rfl⟩ := execute_prestige_ok h
    rfl

/-- Witness for C1 at the fresh state. -/
theorem C1_lifetime_monotone_witness :
    Reachable (GameState.init 0) ∧
    (GameState.init 0).lifetime_earnings
      ≤ (process_tick (GameState.init 0) 1).lifetime_earnings :=
  ⟨Reachable.init 0, C1_lifetime_monotone.1 _ (Reachable.init 0) 1⟩

/-- Counterexample to claim C3 as stated: after a successful prestige the
history is not cleared to an empty sequence — it is reset to the fresh
single sentinel sample `(0, 0)`. -/
theorem C3_history_not_cleared :
    Except.map (fun s => s.history_time) (execute_prestige exLifetime4M 5)
      = Except.ok [0] ∧ ([0] : List ℤ) ≠ [] := by
  refine ⟨?_, by simp⟩
  unfold execute_prestige
  dsimp only
  rw [if_pos (by rw [claimable_exLifetime4M]; norm_num)]
  rfl

/-- Claim C3 (amended): `execute_prestige` fails with `NoClaimableUnits`
(performing no state change) when `claimable = 0`; when `claimable > 0`
it produces a state with zero currency and lifetime earnings, all business
counts zero, the history reset to the single fresh sample `(0, 0)`,
both timestamps set to `now`, `prestigeUnits` increased by exactly
`claimable` (hence strictly increased), and the owned upgrade ids carried
forward unchanged. -/
theorem C3_prestige_reset :
    (∀ (s : GameState) (now : ℚ), claimable_angels s = 0 →
        execute_prestige s now = Except.error EngineError.NoClaimableUnits) ∧
    (∀ (s : GameState) (now : ℚ), 0 < claimable_angels s →
        execute_prestige s now =
          Except.ok { GameState.init now with
            angels := s.angels + (claimable_angels s).toNat
            upgrades := s.upgrades }) ∧
    (∀ (s s' : GameState) (now : ℚ), execute_prestige s now = Except.ok s' →
        s'.money = 0 ∧ s'.lifetime_earnings = 0 ∧ (∀ id, s'.businesses id = 0) ∧
        s'.history_time = [0] ∧ s'.history_value = [0] ∧
        s'.start_time = now ∧ s'.last_tick = now ∧
        ((s'.angels : ℤ)) = (s.angels : ℤ) + claimable_angels s ∧
        s.angels < s'.angels ∧
        s'.upgrades = s.upgrades) := by
  refine ⟨?_, ?_, ?_⟩
  · intro s now h
    unfold execute_prestige
    dsimp only
    rw [if_neg (by rw [h]; exact lt_irrefl 0)]
  · intro s now h
    unfold execute_prestige
    dsimp only
    rw [if_pos h]
  · intro s s' now h
    obtain ⟨hc, rfl⟩ := execute_prestige_ok h
    refine ⟨rfl, rfl, fun id => rfl, rfl, rfl, rfl, rfl, ?_, ?_, rfl⟩
    · show ((s.angels + (claimable_angels s).toNat : ℕ) : ℤ)
        = (s.angels : ℤ) + claimable_angels s
      push_cast
      rw [Int.toNat_of_nonneg hc.le]
    · show s.angels < s.angels + (claimable_angels s).toNat
      omega

/-- Witness for C3 at the fresh state (nothing claimable). -/
theorem C3_prestige_reset_witness :
    claimable_angels (GameState.init 0) = 0 ∧
    execute_prestige (GameState.init 0) 7
      = Except.error EngineError.NoClaimableUnits := by
  have h : claimable_angels (GameState.init 0) = 0 := by
    unfold claimable_angels potential_angels GameState.init
    norm_num
  exact ⟨h, C3_prestige_reset.1 _ 7 h⟩

/-- Claim C8: every reachable state (hence any state after any sequence of
ticks) has at most 100 history samples, with strictly increasing sampled
elapsed times and the two history lists in lockstep; a tick either leaves
the history alone or appends one sample and drops entries only from the
front (FIFO eviction). -/
theorem C8_history_bound :
    (∀ s : GameState, Reachable s →
        s.history_time.length ≤ 100 ∧ s.history_time.Chain' (· < ·) ∧
        s.history_value.length = s.history_time.length) ∧
    (∀ (s : GameState) (now : ℚ),
        (process_tick s now).history_time = s.history_time ∨
        ∃ gt : ℤ, List.IsSuffix (process_tick s now).history_time
          (s.history_time ++ [gt])) := by
  constructor
  · exact fun s h => hist_inv_reachable h
  · intro s now
    rcases process_tick_history s now with ⟨ht, -⟩ | ⟨gt, v, -, heq⟩
    · exact Or.inl ht
    · right
      refine ⟨gt, ?_⟩
      by_cases hcond : (s.history_time ++ [gt]).length > 100
      · rw [if_pos hcond] at heq
        simp only [Prod.mk.injEq] at heq
        rw [heq.1]
        exact List.tail_suffix _
      · rw [if_neg hcond] at heq
        simp only [Prod.mk.injEq] at heq
        rw [heq.1]

/-- Witness for C8 at the fresh state. -/
theorem C8_history_bound_witness :
    Reachable (GameState.init 0) ∧
    ((GameState.init 0).history_time.length ≤ 100 ∧
     (GameState.init 0).history_time.Chain' (· < ·) ∧
     (GameState.init 0).history_value.length
       = (GameState.init 0).history_time.length) :=
  ⟨Reachable.init 0, C8_history_bound.1 _ (Reachable.init 0)⟩

/-- Claim C9: accrual is additive in elapsed time — splitting the interval
up to `t` into any time-ordered sequence of intermediate ticks yields
exactly the same `money` and `lifetime_earnings` as a single tick at `t`
(exact equality in the rational model). -/
theorem C9_accrual_additivity :
    ∀ (s : GameState) (ts : List ℚ) (t : ℚ),
      List.Chain (· ≤ ·) s.last_tick (ts ++ [t]) →
      ((ts ++ [t]).foldl process_tick s).money = (process_tick s t).money ∧
      ((ts ++ [t]).foldl process_tick s).lifetime_earnings
        = (process_tick s t).lifetime_earnings := by
  intro s ts t h
  obtain ⟨fm, fl, -⟩ := tick_foldl (ts ++ [t]) s h
  have hlast : (ts ++ [t]).getLastD s.last_tick = t := by
    simp [List.getLastD_concat]
  have hle : s.last_tick ≤ t := by
    have := chain_le_getLastD h
    rwa [hlast] at this
  obtain ⟨sm, sl, -⟩ := process_tick_accrues hle
  exact ⟨by rw [fm, hlast, sm], by rw [fl, hlast, sl]⟩

/-- Witness for C9: two ticks at times 1 and 3 equal one tick at 3. -/
theorem C9_accrual_additivity_witness :
    List.Chain (· ≤ ·) (GameState.init 0).last_tick ([1] ++ [3]) ∧
    (([1] ++ [3]).foldl process_tick (GameState.init 0)).money
      = (process_tick (GameState.init 0) 3).money := by
  have h : List.Chain (· ≤ ·) (GameState.init 0).last_tick ([1] ++ [3]) := by
    norm_num [List.chain_cons, GameState.init]
  exact ⟨h, (C9_accrual_additivity _ [1] 3 h).1⟩

end StartupEmpire
